import Mathlib

/-!
Verification of the silifuzz relocatable-corpus builder specification.

The development shallowly embeds the parts of the repository that the
checked properties talk about: the snapify option surface from
snap/gen/snap_generator.h, the runner's corpus-loading entry point from
runner/loading_snap_corpus.cc, and a model of the relocatable corpus
builder, relocator and snap-to-snapshot conversion built from the
specification (those components' implementations are not part of the
visible sources; only their tests and declarations are).
-/

/-- Modelled from the spec: page size used by the direct-mmap alignment
rules (the test file checks alignment against 4096). -/
def pageSize : Nat := 4096

/-- Modelled from the spec: the closed set of supported architectures
(util/arch.h is not among the visible sources). -/
inductive ArchitectureId
  | kX86_64
  | kAArch64
deriving DecidableEq

/-- Modelled from the spec: platform identifiers with the special kAny
value (util/platform.h is not among the visible sources). -/
inductive PlatformId
  | kAny
  | kIntelSkylake
  | kIntelIcelake
  | kAmdMilan
  | kArmNeoverseN1
deriving DecidableEq

/-- Memory permission flags of a mapping. -/
structure MemoryPerms where
  r : Bool
  w : Bool
  x : Bool
deriving DecidableEq

/-- Modelled from the spec: a memory mapping with address, length and
permission flags. -/
structure MemoryMapping where
  start_address : Nat
  num_bytes : Nat
  perms : MemoryPerms
deriving DecidableEq

/-- Byte content is modelled as a list of natural numbers. -/
abbrev ByteList := List Nat

/-- Modelled from the spec: a memory-byte span with its start address and
literal byte content. -/
structure MemoryBytes where
  start_address : Nat
  byte_values : ByteList
deriving DecidableEq

/-- Modelled from the spec: an expected end state; `defined` is false for
the explicit undefined-end-state marker, and `platforms` lists the
platforms the end state was recorded on. -/
structure EndState where
  defined : Bool
  platforms : List PlatformId
  registers : ByteList
deriving DecidableEq

/-- Modelled from the spec: the caller-owned snapshot representation, with
memory-byte spans grouped under the mapping that contains them. -/
structure Snapshot where
  id : String
  arch : ArchitectureId
  mappings : List (MemoryMapping × List MemoryBytes)
  registers : ByteList
  end_states : List EndState
deriving DecidableEq

/-- Per-snap generation options, translated from SnapifyOptions in
snap/gen/snap_generator.h, with the same defaults. -/
structure SnapifyOptions where
  allow_undefined_end_state : Bool := false
  platform_id : PlatformId := PlatformId.kAny
  compress_repeating_bytes : Bool := true
  support_direct_mmap : Bool := false
deriving DecidableEq

/-- Translated from SnapifyOptions::MakeOpts: only on aarch64 are
executable pages kept uncompressed so that they can be mmaped. -/
def SnapifyOptions.MakeOpts (arch_id : ArchitectureId)
    (allow_undefined_end_state : Bool) : SnapifyOptions :=
  let support_direct_mmap : Bool := decide (arch_id = ArchitectureId.kAArch64)
  { allow_undefined_end_state := allow_undefined_end_state,
    support_direct_mmap := support_direct_mmap }

/-- Translated from SnapifyOptions::V2InputRunOpts. -/
def SnapifyOptions.V2InputRunOpts (arch_id : ArchitectureId) : SnapifyOptions :=
  SnapifyOptions.MakeOpts arch_id false

/-- Translated from SnapifyOptions::V2InputMakeOpts. -/
def SnapifyOptions.V2InputMakeOpts (arch_id : ArchitectureId) : SnapifyOptions :=
  SnapifyOptions.MakeOpts arch_id true

/-- The one canonicalization error kind: no matching end state
(reported as NOT_FOUND by CanSnapify and Snapify). -/
inductive SnapifyError
  | notFound
deriving DecidableEq

/-- Modelled from the spec: an end state satisfies the requested platform
when it is a defined end state recorded for that platform (kAny matches
any defined end state). -/
def endStateMatchesPlatform (platform_id : PlatformId) (es : EndState) : Bool :=
  es.defined &&
    (decide (platform_id = PlatformId.kAny) ||
      es.platforms.any (fun q => decide (q = platform_id)))

/-- Modelled from the spec: Snapify's end-state selection (the
implementation behind the snap_generator.h declaration is not among the
visible sources).  With allow_undefined_end_state the first end state is
taken as-is; otherwise an end state satisfying platform_id is searched
for and its absence is the NOT_FOUND failure.  The injected exit sequence
and writable-memory capture are not observed by any checked property and
are not modelled. -/
def Snapify (s : Snapshot) (opts : SnapifyOptions) : Except SnapifyError Snapshot :=
  if opts.allow_undefined_end_state then
    Except.ok { s with end_states := s.end_states.take 1 }
  else
    match s.end_states.find? (endStateMatchesPlatform opts.platform_id) with
    | some es => Except.ok { s with end_states := [es] }
    | none => Except.error SnapifyError.notFound

/-- Modelled from the spec: CanSnapify succeeds exactly when Snapify
does. -/
def CanSnapify (s : Snapshot) (opts : SnapifyOptions) : Except SnapifyError Unit :=
  (Snapify s opts).map (fun _ => ())

/-- Blob-side byte data of one span: either a run of one repeated byte or
an offset into the blob's byte pool. -/
inductive SnapByteData
  | byte_run (value : Nat) (size : Nat)
  | byte_values (offset : Nat) (size : Nat)
deriving DecidableEq

/-- Blob-side memory-byte descriptor. -/
structure SnapMemoryBytes where
  start_address : Nat
  data : SnapByteData
deriving DecidableEq

/-- Blob-side memory mapping with its byte descriptors. -/
structure SnapMemoryMapping where
  start_address : Nat
  num_bytes : Nat
  perms : MemoryPerms
  memory_bytes : List SnapMemoryBytes
deriving DecidableEq

/-- Blob-side Snap record. -/
structure SnapRecord where
  id : String
  memory_mappings : List SnapMemoryMapping
  registers : ByteList
  end_states : List EndState
deriving DecidableEq

/-- Modelled from the spec: the relocatable blob, holding the record
table and the deduplicated byte pool; every byte-data reference in the
records is an offset into the pool. -/
structure RelocatableBlob where
  arch : ArchitectureId
  records : List SnapRecord
  pool : ByteList
deriving DecidableEq

/-- Relocated byte data: the pool offset has been rewritten into an
absolute pointer. -/
inductive RelocByteData
  | byte_run (value : Nat) (size : Nat)
  | byte_values (ptr : Nat) (size : Nat)
deriving DecidableEq

/-- Relocated memory-byte descriptor. -/
structure RelocMemoryBytes where
  start_address : Nat
  data : RelocByteData
deriving DecidableEq

/-- Relocated memory mapping. -/
structure RelocMemoryMapping where
  start_address : Nat
  num_bytes : Nat
  perms : MemoryPerms
  memory_bytes : List RelocMemoryBytes
deriving DecidableEq

/-- Relocated Snap record. -/
structure RelocSnap where
  id : String
  memory_mappings : List RelocMemoryMapping
  registers : ByteList
  end_states : List EndState
deriving DecidableEq

/-- Modelled from the spec: the relocated corpus view; it borrows the
blob's pool bytes and remembers the base address the blob was mapped
at. -/
structure RelocatedCorpus where
  arch : ArchitectureId
  base : Nat
  pool : ByteList
  snaps : List RelocSnap
deriving DecidableEq

/-- Modelled from the spec: the content-addressed byte pool; `data` holds
the pool bytes laid out so far and `index` maps interned content to its
offset in `data`. -/
structure BytePool where
  data : ByteList
  index : List (ByteList × Nat)
deriving DecidableEq

/-- Content lookup in the pool's index (first match wins). -/
def lookupContent : List (ByteList × Nat) → ByteList → Option Nat
  | [], _ => none
  | (c, o) :: rest, key => if c = key then some o else lookupContent rest key

/-- Round a size up to the next multiple of the page size. -/
def roundUpPage (n : Nat) : Nat := ((n + (pageSize - 1)) / pageSize) * pageSize

/-- Modelled from the spec: interning a literal byte span into the pool;
bit-identical content returns the already-assigned offset, new content is
appended at the current end of the pool. -/
def BytePool.intern (p : BytePool) (c : ByteList) : Nat × BytePool :=
  match lookupContent p.index c with
  | some o => (o, p)
  | none =>
    (p.data.length, ⟨p.data ++ c, (c, p.data.length) :: p.index⟩)

/-- Modelled from the spec: interning of a direct-mmap-eligible span; the
content is placed at the next page-aligned pool offset and its region
length is rounded up to a multiple of the page size. -/
def BytePool.internAligned (p : BytePool) (c : ByteList) : Nat × BytePool :=
  match lookupContent p.index c with
  | some o => (o, p)
  | none =>
    let o := roundUpPage p.data.length
    (o, ⟨p.data ++ (List.replicate (o - p.data.length) 0 ++
          (c ++ List.replicate (roundUpPage c.length - c.length) 0)),
        (c, o) :: p.index⟩)

/-- The empty byte pool. -/
def emptyPool : BytePool := ⟨[], []⟩

/-- Modelled from the spec: the run-compressor classifies a span as a
constant-fill run when every byte equals the first. -/
def isRepeating : ByteList → Bool
  | [] => true
  | b :: rest => rest.all (fun v => v == b)

/-- A mapping is direct-mmap eligible when the option is set and the
mapping carries the executable permission. -/
def execMmapMapping (opts : SnapifyOptions) (m : MemoryMapping) : Bool :=
  opts.support_direct_mmap && m.perms.x

/-- A span is stored as a constant-fill run exactly when it is not
direct-mmap eligible, run compression is enabled, and the content
repeats. -/
def runCompressed (opts : SnapifyOptions) (em : Bool) (c : ByteList) : Bool :=
  !em && (opts.compress_repeating_bytes && isRepeating c)

/-- Modelled from the spec: phase one of the layout, placing every
direct-mmap-eligible span of a mapping into its own page-aligned pool
region. -/
def internExecSpan (p : BytePool) (mb : MemoryBytes) : BytePool :=
  (p.internAligned mb.byte_values).2

/-- Phase-one layout over one mapping. -/
def internExecMapping (opts : SnapifyOptions) (p : BytePool)
    (ms : MemoryMapping × List MemoryBytes) : BytePool :=
  if execMmapMapping opts ms.1 then ms.2.foldl internExecSpan p else p

/-- Phase-one layout over one snapshot. -/
def internExecSnapshot (opts : SnapifyOptions) (p : BytePool) (s : Snapshot) : BytePool :=
  s.mappings.foldl (internExecMapping opts) p

/-- Phase-one layout over the whole corpus. -/
def internExecCorpus (opts : SnapifyOptions) (p : BytePool)
    (ss : List Snapshot) : BytePool :=
  ss.foldl (internExecSnapshot opts) p

/-- Modelled from the spec: phase two of the layout, interning every
literal (non-run-compressed) span; already-interned content dedups to its
existing offset. -/
def internSpan (opts : SnapifyOptions) (em : Bool) (p : BytePool)
    (mb : MemoryBytes) : BytePool :=
  if runCompressed opts em mb.byte_values then p else (p.intern mb.byte_values).2

/-- Phase-two layout over one mapping. -/
def internMapping (opts : SnapifyOptions) (p : BytePool)
    (ms : MemoryMapping × List MemoryBytes) : BytePool :=
  ms.2.foldl (internSpan opts (execMmapMapping opts ms.1)) p

/-- Phase-two layout over one snapshot. -/
def internSnapshot (opts : SnapifyOptions) (p : BytePool) (s : Snapshot) : BytePool :=
  s.mappings.foldl (internMapping opts) p

/-- Phase-two layout over the whole corpus. -/
def internCorpus (opts : SnapifyOptions) (p : BytePool) (ss : List Snapshot) : BytePool :=
  ss.foldl (internSnapshot opts) p

/-- Modelled from the spec: the finished byte pool of a corpus, built by
the page-aligned executable pass followed by the general literal pass. -/
def corpusPool (opts : SnapifyOptions) (ss : List Snapshot) : BytePool :=
  internCorpus opts (internExecCorpus opts emptyPool ss) ss

/-- Modelled from the spec: the blob-side byte data of one span; runs are
stored explicitly, literal content is referenced by its pool offset. -/
def descByteData (opts : SnapifyOptions) (em : Bool)
    (idx : List (ByteList × Nat)) (c : ByteList) : SnapByteData :=
  if runCompressed opts em c then
    SnapByteData.byte_run (c.headD 0) c.length
  else
    SnapByteData.byte_values ((lookupContent idx c).getD 0) c.length

/-- Blob-side descriptor of one memory-byte span. -/
def descMemoryBytes (opts : SnapifyOptions) (em : Bool)
    (idx : List (ByteList × Nat)) (mb : MemoryBytes) : SnapMemoryBytes :=
  ⟨mb.start_address, descByteData opts em idx mb.byte_values⟩

/-- Blob-side descriptor of one mapping. -/
def descMapping (opts : SnapifyOptions) (idx : List (ByteList × Nat))
    (ms : MemoryMapping × List MemoryBytes) : SnapMemoryMapping :=
  ⟨ms.1.start_address, ms.1.num_bytes, ms.1.perms,
    ms.2.map (descMemoryBytes opts (execMmapMapping opts ms.1) idx)⟩

/-- Blob-side record of one snapshot. -/
def descRecord (opts : SnapifyOptions) (idx : List (ByteList × Nat))
    (s : Snapshot) : SnapRecord :=
  ⟨s.id, s.mappings.map (descMapping opts idx), s.registers, s.end_states⟩

/-- Modelled from the spec: the relocatable corpus builder (the
implementation behind snap/gen/relocatable_snap_generator.h is not among
the visible sources).  It lays out the deduplicated byte pool and emits
one record per input snapshot, in input order. -/
def GenerateRelocatableSnaps (arch : ArchitectureId) (opts : SnapifyOptions)
    (snapshots : List Snapshot) : RelocatableBlob :=
  ⟨arch, snapshots.map (descRecord opts (corpusPool opts snapshots).index),
    (corpusPool opts snapshots).data⟩

/-- Relocate one span descriptor: pool offsets become absolute
pointers computed from the blob's base address. -/
def relocByteData (base : Nat) : SnapByteData → RelocByteData
  | SnapByteData.byte_run v n => RelocByteData.byte_run v n
  | SnapByteData.byte_values o n => RelocByteData.byte_values (base + o) n

/-- Relocate one memory-byte descriptor. -/
def relocMemoryBytes (base : Nat) (d : SnapMemoryBytes) : RelocMemoryBytes :=
  ⟨d.start_address, relocByteData base d.data⟩

/-- Relocate one mapping descriptor. -/
def relocMapping (base : Nat) (m : SnapMemoryMapping) : RelocMemoryMapping :=
  ⟨m.start_address, m.num_bytes, m.perms, m.memory_bytes.map (relocMemoryBytes base)⟩

/-- Relocate one record. -/
def relocSnap (base : Nat) (r : SnapRecord) : RelocSnap :=
  ⟨r.id, r.memory_mappings.map (relocMapping base), r.registers, r.end_states⟩

/-- Modelled from the spec: the relocator (SnapRelocator::RelocateCorpus
is not among the visible sources); a single pass rewrites every offset
field into base plus offset and borrows the pool bytes without copying. -/
def RelocateCorpus (base : Nat) (blob : RelocatableBlob) : RelocatedCorpus :=
  ⟨blob.arch, base, blob.pool, blob.records.map (relocSnap base)⟩

/-- Contiguous byte extraction from pool data. -/
def extractBytes (data : ByteList) (o n : Nat) : ByteList := (data.drop o).take n

/-- Read bytes of a relocated corpus through an absolute pointer. -/
def readBytes (corpus : RelocatedCorpus) (ptr n : Nat) : ByteList :=
  extractBytes corpus.pool (ptr - corpus.base) n

/-- Decode relocated byte data back into literal bytes. -/
def decodeByteData (pool : ByteList) (base : Nat) : RelocByteData → ByteList
  | RelocByteData.byte_run v n => List.replicate n v
  | RelocByteData.byte_values ptr n => extractBytes pool (ptr - base) n

/-- Decode one relocated memory-byte descriptor. -/
def decodeMemoryBytes (pool : ByteList) (base : Nat) (d : RelocMemoryBytes) :
    MemoryBytes :=
  ⟨d.start_address, decodeByteData pool base d.data⟩

/-- Decode one relocated mapping. -/
def decodeMapping (pool : ByteList) (base : Nat) (m : RelocMemoryMapping) :
    MemoryMapping × List MemoryBytes :=
  (⟨m.start_address, m.num_bytes, m.perms⟩,
    m.memory_bytes.map (decodeMemoryBytes pool base))

/-- Modelled from the spec: SnapToSnapshot converts one relocated Snap
record back into a snapshot (snap/snap_util.h's implementation is not
among the visible sources). -/
def SnapToSnapshot (corpus : RelocatedCorpus) (r : RelocSnap) : Snapshot :=
  ⟨r.id, corpus.arch, r.memory_mappings.map (decodeMapping corpus.pool corpus.base),
    r.registers, r.end_states⟩

/-- Modelled from the spec: the slice of the canonicalization contract
the direct-mmap layout relies on: each direct-mmap-eligible mapping's
content arrives as a single span whose length is a whole number of
pages. -/
def CanonicalSnapshot (opts : SnapifyOptions) (s : Snapshot) : Prop :=
  ∀ ms ∈ s.mappings, execMmapMapping opts ms.1 = true →
    ms.2.length = 1 ∧ ∀ mb ∈ ms.2, mb.byte_values.length % pageSize = 0

/-- LoadCorpus translated from runner/loading_snap_corpus.cc; the
underlying LoadCorpusFromFile is abstracted as a function argument since
it lives outside the visible sources.  A none filename models the null
pointer, and the optional fd slot models the out-parameter. -/
def LoadCorpus {Corpus : Type}
    (loadCorpusFromFile : String → Bool → Option Int → Option Corpus × Option Int)
    (filename : Option String) (corpus_fd : Option Int) :
    Option Corpus × Option Int :=
  match filename with
  | none =>
    match corpus_fd with
    | some _ => (none, some (-1))
    | none => (none, none)
  | some f => loadCorpusFromFile f true corpus_fd

/-- Pool data only ever grows by appending. -/
def DataExt (a b : ByteList) : Prop := ∃ t, b = a ++ t

/-- Pool evolution order: the data extends and every index entry keeps
its offset. -/
def PoolLE (p q : BytePool) : Prop :=
  DataExt p.data q.data ∧
  ∀ c o, lookupContent p.index c = some o → lookupContent q.index c = some o

/-- Pool well-formedness: every index entry points at an in-bounds pool
region holding exactly the interned content. -/
def PoolWF (p : BytePool) : Prop :=
  ∀ c o, lookupContent p.index c = some o →
    o + c.length ≤ p.data.length ∧ extractBytes p.data o c.length = c

/-- All index entries are page-aligned (holds throughout the
executable-page layout pass). -/
def AlignedIndex (p : BytePool) : Prop :=
  ∀ c o, lookupContent p.index c = some o → o % pageSize = 0

/-- The pool's index resolves this content. -/
def ContentInterned (p : BytePool) (c : ByteList) : Prop :=
  ∃ o, lookupContent p.index c = some o

/-- The pool's index resolves this content to a page-aligned offset. -/
def ContentAligned (p : BytePool) (c : ByteList) : Prop :=
  ∃ o, lookupContent p.index c = some o ∧ o % pageSize = 0

theorem dataExt_refl (a : ByteList) : DataExt a a := ⟨[], by simp⟩

theorem dataExt_trans {a b c : ByteList} (h1 : DataExt a b) (h2 : DataExt b c) :
    DataExt a c := by
  obtain ⟨t1, rfl⟩ := h1
  obtain ⟨t2, rfl⟩ := h2
  exact ⟨t1 ++ t2, by rw [List.append_assoc]⟩

theorem poolLE_refl (p : BytePool) : PoolLE p p :=
  ⟨dataExt_refl _, fun _ _ h => h⟩

theorem poolLE_trans {p q r : BytePool} (h1 : PoolLE p q) (h2 : PoolLE q r) :
    PoolLE p r :=
  ⟨dataExt_trans h1.1 h2.1, fun c o h => h2.2 c o (h1.2 c o h)⟩

theorem contentInterned_mono {p q : BytePool} {c : ByteList} (h : PoolLE p q) :
    ContentInterned p c → ContentInterned q c
  | ⟨o, ho⟩ => ⟨o, h.2 c o ho⟩

theorem contentAligned_mono {p q : BytePool} {c : ByteList} (h : PoolLE p q) :
    ContentAligned p c → ContentAligned q c
  | ⟨o, ho, ha⟩ => ⟨o, h.2 c o ho, ha⟩

theorem take_append_of_le_len : ∀ (a t : ByteList) (n : Nat), n ≤ a.length →
    (a ++ t).take n = a.take n
  | _, _, 0, _ => by simp
  | [], _, Nat.succ _, h => by simp at h
  | x :: xs, t, Nat.succ n, h => by
    simp only [List.cons_append, List.take_succ_cons]
    rw [take_append_of_le_len xs t n (by simpa using h)]

theorem drop_append_of_le_len : ∀ (a t : ByteList) (o : Nat), o ≤ a.length →
    (a ++ t).drop o = a.drop o ++ t
  | _, _, 0, _ => by simp
  | [], _, Nat.succ _, h => by simp at h
  | x :: xs, t, Nat.succ o, h => by
    simp only [List.cons_append, List.drop_succ_cons]
    exact drop_append_of_le_len xs t o (by simpa using h)

theorem extractBytes_mono (a t : ByteList) (o n : Nat) (h : o + n ≤ a.length) :
    extractBytes (a ++ t) o n = extractBytes a o n := by
  unfold extractBytes
  rw [drop_append_of_le_len a t o (by omega),
    take_append_of_le_len (a.drop o) t n (by rw [List.length_drop]; omega)]

theorem extractBytes_ext {a b : ByteList} (h : DataExt a b) (o n : Nat)
    (hb : o + n ≤ a.length) : extractBytes b o n = extractBytes a o n := by
  obtain ⟨t, rfl⟩ := h
  exact extractBytes_mono a t o n hb

theorem roundUpPage_ge (n : Nat) : n ≤ roundUpPage n := by
  unfold roundUpPage pageSize
  omega

theorem roundUpPage_mod (n : Nat) : roundUpPage n % pageSize = 0 := by
  unfold roundUpPage pageSize
  omega

theorem extractBytes_append_self (A c t : ByteList) :
    extractBytes (A ++ (c ++ t)) A.length c.length = c := by
  unfold extractBytes
  rw [List.drop_left, take_append_of_le_len c t c.length (Nat.le_refl _)]
  exact List.take_length c

theorem intern_poolLE (p : BytePool) (c : ByteList) : PoolLE p (p.intern c).2 := by
  unfold BytePool.intern
  cases h : lookupContent p.index c with
  | some o => exact poolLE_refl p
  | none =>
    refine ⟨⟨c, rfl⟩, ?_⟩
    intro c1 o1 h1
    show lookupContent ((c, p.data.length) :: p.index) c1 = some o1
    by_cases hc : c = c1
    · subst hc
      rw [h] at h1
      simp at h1
    · simp only [lookupContent, if_neg hc]
      exact h1

theorem intern_lookup (p : BytePool) (c : ByteList) :
    lookupContent (p.intern c).2.index c = some (p.intern c).1 := by
  unfold BytePool.intern
  cases h : lookupContent p.index c with
  | some o => exact h
  | none => simp [lookupContent]

theorem intern_wf (p : BytePool) (c : ByteList) (hwf : PoolWF p) :
    PoolWF (p.intern c).2 := by
  unfold BytePool.intern
  cases h : lookupContent p.index c with
  | some o => exact hwf
  | none =>
    intro c1 o1 h1
    replace h1 : lookupContent ((c, p.data.length) :: p.index) c1 = some o1 := h1
    show o1 + c1.length ≤ (p.data ++ c).length ∧
      extractBytes (p.data ++ c) o1 c1.length = c1
    by_cases hc : c = c1
    · subst hc
      simp only [lookupContent, if_pos rfl] at h1
      cases h1
      constructor
      · simp [List.length_append]
      · unfold extractBytes
        rw [List.drop_left]
        exact List.take_length c
    · rw [show lookupContent ((c, p.data.length) :: p.index) c1
          = lookupContent p.index c1 by simp [lookupContent, if_neg hc]] at h1
      obtain ⟨hb, he⟩ := hwf c1 o1 h1
      constructor
      · rw [List.length_append]; omega
      · rw [extractBytes_mono p.data c o1 c1.length hb]
        exact he

theorem internAligned_poolLE (p : BytePool) (c : ByteList) :
    PoolLE p (p.internAligned c).2 := by
  unfold BytePool.internAligned
  cases h : lookupContent p.index c with
  | some o => exact poolLE_refl p
  | none =>
    refine ⟨⟨_, rfl⟩, ?_⟩
    intro c1 o1 h1
    show lookupContent ((c, roundUpPage p.data.length) :: p.index) c1 = some o1
    by_cases hc : c = c1
    · subst hc
      rw [h] at h1
      simp at h1
    · simp only [lookupContent, if_neg hc]
      exact h1

theorem internAligned_lookup (p : BytePool) (c : ByteList) :
    lookupContent (p.internAligned c).2.index c = some (p.internAligned c).1 := by
  unfold BytePool.internAligned
  cases h : lookupContent p.index c with
  | some o => exact h
  | none => simp [lookupContent]

theorem internAligned_wf (p : BytePool) (c : ByteList) (hwf : PoolWF p) :
    PoolWF (p.internAligned c).2 := by
  unfold BytePool.internAligned
  cases h : lookupContent p.index c with
  | some o => exact hwf
  | none =>
    intro c1 o1 h1
    replace h1 : lookupContent ((c, roundUpPage p.data.length) :: p.index) c1
      = some o1 := h1
    have hge : p.data.length ≤ roundUpPage p.data.length := roundUpPage_ge _
    have hlen : (p.data ++ List.replicate (roundUpPage p.data.length - p.data.length) 0).length
        = roundUpPage p.data.length := by
      simp [List.length_append, List.length_replicate]
      omega
    show o1 + c1.length ≤ (p.data ++ (List.replicate (roundUpPage p.data.length - p.data.length) 0 ++
        (c ++ List.replicate (roundUpPage c.length - c.length) 0))).length ∧
      extractBytes (p.data ++ (List.replicate (roundUpPage p.data.length - p.data.length) 0 ++
        (c ++ List.replicate (roundUpPage c.length - c.length) 0))) o1 c1.length = c1
    rw [← List.append_assoc]
    by_cases hc : c = c1
    · subst hc
      simp only [lookupContent, if_pos rfl] at h1
      cases h1
      constructor
      · simp only [List.length_append, List.length_replicate, hlen]
        omega
      · have hx := extractBytes_append_self
          (p.data ++ List.replicate (roundUpPage p.data.length - p.data.length) 0)
          c (List.replicate (roundUpPage c.length - c.length) 0)
        rw [hlen] at hx
        exact hx
    · rw [show lookupContent ((c, roundUpPage p.data.length) :: p.index) c1
          = lookupContent p.index c1 by simp [lookupContent, if_neg hc]] at h1
      obtain ⟨hb, he⟩ := hwf c1 o1 h1
      constructor
      · simp only [List.length_append, List.length_replicate]
        omega
      · rw [extractBytes_mono _ _ o1 c1.length
            (by simp only [List.length_append, List.length_replicate]; omega),
          extractBytes_mono p.data _ o1 c1.length hb]
        exact he

theorem internAligned_alignedIndex (p : BytePool) (c : ByteList)
    (h : AlignedIndex p) : AlignedIndex (p.internAligned c).2 := by
  unfold BytePool.internAligned
  cases hl : lookupContent p.index c with
  | some o => exact h
  | none =>
    intro c1 o1 h1
    replace h1 : lookupContent ((c, roundUpPage p.data.length) :: p.index) c1
      = some o1 := h1
    by_cases hc : c = c1
    · subst hc
      simp only [lookupContent, if_pos rfl] at h1
      cases h1
      exact roundUpPage_mod _
    · rw [show lookupContent ((c, roundUpPage p.data.length) :: p.index) c1
          = lookupContent p.index c1 by simp [lookupContent, if_neg hc]] at h1
      exact h c1 o1 h1

theorem internAligned_res_aligned (p : BytePool) (c : ByteList)
    (h : AlignedIndex p) : (p.internAligned c).1 % pageSize = 0 := by
  unfold BytePool.internAligned
  cases hl : lookupContent p.index c with
  | some o => exact h c o hl
  | none => exact roundUpPage_mod _

theorem foldl_poolLE {α : Type} (f : BytePool → α → BytePool)
    (hf : ∀ p a, PoolLE p (f p a)) :
    ∀ (l : List α) (p : BytePool), PoolLE p (l.foldl f p)
  | [], p => poolLE_refl p
  | a :: rest, p => poolLE_trans (hf p a) (foldl_poolLE f hf rest (f p a))

theorem foldl_preserve {α : Type} (P : BytePool → Prop) (f : BytePool → α → BytePool)
    (hf : ∀ p a, P p → P (f p a)) :
    ∀ (l : List α) (p : BytePool), P p → P (l.foldl f p)
  | [], _, hp => hp
  | a :: rest, p, hp => foldl_preserve P f hf rest (f p a) (hf p a hp)

theorem foldl_covers {α : Type} (P : BytePool → Prop) (Q : α → BytePool → Prop)
    (f : BytePool → α → BytePool)
    (hP : ∀ p a, P p → P (f p a))
    (hLE : ∀ p a, PoolLE p (f p a))
    (hQ : ∀ a p q, PoolLE p q → Q a p → Q a q)
    (hstep : ∀ p a, P p → Q a (f p a)) :
    ∀ (l : List α) (p : BytePool), P p → ∀ a ∈ l, Q a (l.foldl f p) := by
  intro l
  induction l with
  | nil =>
    intro p _ a ha
    simp at ha
  | cons x rest ih =>
    intro p hp a ha
    simp only [List.foldl_cons]
    rcases List.mem_cons.mp ha with rfl | hmem
    · exact hQ a (f p a) _ (foldl_poolLE f hLE rest (f p a)) (hstep p a hp)
    · exact ih (f p x) (hP p x hp) a hmem

theorem internSpan_poolLE (opts : SnapifyOptions) (em : Bool) (p : BytePool)
    (mb : MemoryBytes) : PoolLE p (internSpan opts em p mb) := by
  unfold internSpan
  split
  · exact poolLE_refl p
  · exact intern_poolLE p _

theorem internSpan_wf (opts : SnapifyOptions) (em : Bool) (p : BytePool)
    (mb : MemoryBytes) (h : PoolWF p) : PoolWF (internSpan opts em p mb) := by
  unfold internSpan
  split
  · exact h
  · exact intern_wf p _ h

theorem internMapping_poolLE (opts : SnapifyOptions) (p : BytePool)
    (ms : MemoryMapping × List MemoryBytes) : PoolLE p (internMapping opts p ms) :=
  foldl_poolLE _ (internSpan_poolLE opts _) ms.2 p

theorem internMapping_wf (opts : SnapifyOptions) (p : BytePool)
    (ms : MemoryMapping × List MemoryBytes) (h : PoolWF p) :
    PoolWF (internMapping opts p ms) :=
  foldl_preserve PoolWF _ (internSpan_wf opts _) ms.2 p h

theorem internSnapshot_poolLE (opts : SnapifyOptions) (p : BytePool)
    (s : Snapshot) : PoolLE p (internSnapshot opts p s) :=
  foldl_poolLE _ (internMapping_poolLE opts) s.mappings p

theorem internSnapshot_wf (opts : SnapifyOptions) (p : BytePool)
    (s : Snapshot) (h : PoolWF p) : PoolWF (internSnapshot opts p s) :=
  foldl_preserve PoolWF _ (internMapping_wf opts) s.mappings p h

theorem internCorpus_poolLE (opts : SnapifyOptions) (p : BytePool)
    (ss : List Snapshot) : PoolLE p (internCorpus opts p ss) :=
  foldl_poolLE _ (internSnapshot_poolLE opts) ss p

theorem internCorpus_wf (opts : SnapifyOptions) (p : BytePool)
    (ss : List Snapshot) (h : PoolWF p) : PoolWF (internCorpus opts p ss) :=
  foldl_preserve PoolWF _ (internSnapshot_wf opts) ss p h

theorem internExecSpan_poolLE (p : BytePool) (mb : MemoryBytes) :
    PoolLE p (internExecSpan p mb) :=
  internAligned_poolLE p _

theorem internExecSpan_wf (p : BytePool) (mb : MemoryBytes) (h : PoolWF p) :
    PoolWF (internExecSpan p mb) :=
  internAligned_wf p _ h

theorem internExecSpan_aligned (p : BytePool) (mb : MemoryBytes)
    (h : AlignedIndex p) : AlignedIndex (internExecSpan p mb) :=
  internAligned_alignedIndex p _ h

theorem internExecMapping_poolLE (opts : SnapifyOptions) (p : BytePool)
    (ms : MemoryMapping × List MemoryBytes) :
    PoolLE p (internExecMapping opts p ms) := by
  unfold internExecMapping
  split
  · exact foldl_poolLE _ internExecSpan_poolLE ms.2 p
  · exact poolLE_refl p

theorem internExecMapping_wf (opts : SnapifyOptions) (p : BytePool)
    (ms : MemoryMapping × List MemoryBytes) (h : PoolWF p) :
    PoolWF (internExecMapping opts p ms) := by
  unfold internExecMapping
  split
  · exact foldl_preserve PoolWF _ internExecSpan_wf ms.2 p h
  · exact h

theorem internExecMapping_aligned (opts : SnapifyOptions) (p : BytePool)
    (ms : MemoryMapping × List MemoryBytes) (h : AlignedIndex p) :
    AlignedIndex (internExecMapping opts p ms) := by
  unfold internExecMapping
  split
  · exact foldl_preserve AlignedIndex _ internExecSpan_aligned ms.2 p h
  · exact h

theorem internExecSnapshot_poolLE (opts : SnapifyOptions) (p : BytePool)
    (s : Snapshot) : PoolLE p (internExecSnapshot opts p s) :=
  foldl_poolLE _ (internExecMapping_poolLE opts) s.mappings p

theorem internExecSnapshot_wf (opts : SnapifyOptions) (p : BytePool)
    (s : Snapshot) (h : PoolWF p) : PoolWF (internExecSnapshot opts p s) :=
  foldl_preserve PoolWF _ (internExecMapping_wf opts) s.mappings p h

theorem internExecSnapshot_aligned (opts : SnapifyOptions) (p : BytePool)
    (s : Snapshot) (h : AlignedIndex p) :
    AlignedIndex (internExecSnapshot opts p s) :=
  foldl_preserve AlignedIndex _ (internExecMapping_aligned opts) s.mappings p h

theorem internExecCorpus_wf (opts : SnapifyOptions) (p : BytePool)
    (ss : List Snapshot) (h : PoolWF p) : PoolWF (internExecCorpus opts p ss) :=
  foldl_preserve PoolWF _ (internExecSnapshot_wf opts) ss p h

theorem emptyPool_wf : PoolWF emptyPool := by
  intro c o h
  simp [lookupContent, emptyPool] at h

theorem emptyPool_aligned : AlignedIndex emptyPool := by
  intro c o h
  simp [lookupContent, emptyPool] at h

theorem corpusPool_wf (opts : SnapifyOptions) (ss : List Snapshot) :
    PoolWF (corpusPool opts ss) :=
  internCorpus_wf opts _ ss (internExecCorpus_wf opts emptyPool ss emptyPool_wf)

theorem internExecCorpus_covers (opts : SnapifyOptions) (ss : List Snapshot) :
    ∀ s ∈ ss, ∀ ms ∈ s.mappings, execMmapMapping opts ms.1 = true →
      ∀ mb ∈ ms.2,
        ContentAligned (internExecCorpus opts emptyPool ss) mb.byte_values := by
  have hspan : ∀ (p : BytePool) (mb : MemoryBytes), AlignedIndex p →
      ContentAligned (internExecSpan p mb) mb.byte_values := by
    intro p mb h
    exact ⟨(p.internAligned mb.byte_values).1, internAligned_lookup p _,
      internAligned_res_aligned p _ h⟩
  have hmap : ∀ (p : BytePool) (ms : MemoryMapping × List MemoryBytes),
      AlignedIndex p → execMmapMapping opts ms.1 = true →
      ∀ mb ∈ ms.2, ContentAligned (internExecMapping opts p ms) mb.byte_values := by
    intro p ms h hexec
    unfold internExecMapping
    rw [if_pos hexec]
    exact foldl_covers AlignedIndex (fun mb q => ContentAligned q mb.byte_values)
      internExecSpan internExecSpan_aligned internExecSpan_poolLE
      (by intro mb p1 q1 hle hca; exact contentAligned_mono hle hca)
      (fun p1 mb hp1 => hspan p1 mb hp1) ms.2 p h
  have hsnap : ∀ (p : BytePool) (s : Snapshot), AlignedIndex p →
      ∀ ms ∈ s.mappings, execMmapMapping opts ms.1 = true →
        ∀ mb ∈ ms.2, ContentAligned (internExecSnapshot opts p s) mb.byte_values := by
    intro p s hp
    exact foldl_covers AlignedIndex
      (fun ms q => execMmapMapping opts ms.1 = true →
        ∀ mb ∈ ms.2, ContentAligned q mb.byte_values)
      (internExecMapping opts) (internExecMapping_aligned opts)
      (internExecMapping_poolLE opts)
      (by intro ms p1 q1 hle hq hexec mb hmb; exact contentAligned_mono hle (hq hexec mb hmb))
      (fun p1 ms hp1 => hmap p1 ms hp1) s.mappings p hp
  exact foldl_covers AlignedIndex
    (fun s q => ∀ ms ∈ s.mappings, execMmapMapping opts ms.1 = true →
      ∀ mb ∈ ms.2, ContentAligned q mb.byte_values)
    (internExecSnapshot opts) (internExecSnapshot_aligned opts)
    (internExecSnapshot_poolLE opts)
    (by intro s1 p1 q1 hle hq ms hms hexec mb hmb; exact contentAligned_mono hle (hq ms hms hexec mb hmb))
    (fun p1 s1 hp1 => hsnap p1 s1 hp1) ss emptyPool emptyPool_aligned

theorem corpusPool_covers_exec (opts : SnapifyOptions) (ss : List Snapshot) :
    ∀ s ∈ ss, ∀ ms ∈ s.mappings, execMmapMapping opts ms.1 = true →
      ∀ mb ∈ ms.2, ContentAligned (corpusPool opts ss) mb.byte_values := by
  intro s hs ms hms hexec mb hmb
  exact contentAligned_mono (internCorpus_poolLE opts _ ss)
    (internExecCorpus_covers opts ss s hs ms hms hexec mb hmb)

theorem corpusPool_covers (opts : SnapifyOptions) (ss : List Snapshot) :
    ∀ s ∈ ss, ∀ ms ∈ s.mappings, ∀ mb ∈ ms.2,
      runCompressed opts (execMmapMapping opts ms.1) mb.byte_values = false →
      ContentInterned (corpusPool opts ss) mb.byte_values := by
  have hspan : ∀ (em : Bool) (p : BytePool) (mb : MemoryBytes),
      runCompressed opts em mb.byte_values = false →
      ContentInterned (internSpan opts em p mb) mb.byte_values := by
    intro em p mb hrc
    have hcond : ¬ (runCompressed opts em mb.byte_values = true) := by
      rw [hrc]
      simp
    unfold internSpan
    rw [if_neg hcond]
    exact ⟨(p.intern mb.byte_values).1, intern_lookup p _⟩
  have hmap : ∀ (p : BytePool) (ms : MemoryMapping × List MemoryBytes),
      ∀ mb ∈ ms.2,
        runCompressed opts (execMmapMapping opts ms.1) mb.byte_values = false →
        ContentInterned (internMapping opts p ms) mb.byte_values := by
    intro p ms
    exact foldl_covers (fun _ => True)
      (fun mb q => runCompressed opts (execMmapMapping opts ms.1) mb.byte_values = false →
        ContentInterned q mb.byte_values)
      (internSpan opts (execMmapMapping opts ms.1)) (fun _ _ _ => trivial)
      (internSpan_poolLE opts _)
      (by intro mb p1 q1 hle hq hrc; exact contentInterned_mono hle (hq hrc))
      (fun p1 mb _ hrc => hspan _ p1 mb hrc) ms.2 p trivial
  have hsnap : ∀ (p : BytePool) (s : Snapshot),
      ∀ ms ∈ s.mappings, ∀ mb ∈ ms.2,
        runCompressed opts (execMmapMapping opts ms.1) mb.byte_values = false →
        ContentInterned (internSnapshot opts p s) mb.byte_values := by
    intro p s
    exact foldl_covers (fun _ => True)
      (fun ms q => ∀ mb ∈ ms.2,
        runCompressed opts (execMmapMapping opts ms.1) mb.byte_values = false →
        ContentInterned q mb.byte_values)
      (internMapping opts) (fun _ _ _ => trivial) (internMapping_poolLE opts)
      (by intro ms p1 q1 hle hq mb hmb hrc; exact contentInterned_mono hle (hq mb hmb hrc))
      (fun p1 ms _ => hmap p1 ms) s.mappings p trivial
  exact foldl_covers (fun _ => True)
    (fun s q => ∀ ms ∈ s.mappings, ∀ mb ∈ ms.2,
      runCompressed opts (execMmapMapping opts ms.1) mb.byte_values = false →
      ContentInterned q mb.byte_values)
    (internSnapshot opts) (fun _ _ _ => trivial) (internSnapshot_poolLE opts)
    (by intro s1 p1 q1 hle hq ms hms mb hmb hrc; exact contentInterned_mono hle (hq ms hms mb hmb hrc))
    (fun p1 s1 _ => hsnap p1 s1) ss (internExecCorpus opts emptyPool ss) trivial

theorem map_self_of_mem {α : Type} (l : List α) (f : α → α)
    (h : ∀ x ∈ l, f x = x) : l.map f = l := by
  induction l with
  | nil => rfl
  | cons a rest ih =>
    simp only [List.map_cons]
    rw [h a (by simp), ih (fun x hx => h x (by simp [hx]))]

theorem all_eq_replicate : ∀ (l : ByteList) (b : Nat),
    l.all (fun v => v == b) = true → l = List.replicate l.length b
  | [], _, _ => rfl
  | a :: rest, b, h => by
    simp only [List.all_cons, Bool.and_eq_true, beq_iff_eq] at h
    obtain ⟨rfl, h2⟩ := h
    simp only [List.length_cons, List.replicate_succ]
    exact congrArg (List.cons a) (all_eq_replicate rest a h2)

theorem isRepeating_replicate (l : ByteList) (h : isRepeating l = true) :
    List.replicate l.length (l.headD 0) = l := by
  cases l with
  | nil => rfl
  | cons b rest =>
    unfold isRepeating at h
    have hr := all_eq_replicate rest b h
    simp only [List.headD_cons, List.length_cons, List.replicate_succ]
    rw [← hr]

theorem descMemoryBytes_roundtrip (opts : SnapifyOptions) (em : Bool)
    (p : BytePool) (base : Nat) (hwf : PoolWF p) (mb : MemoryBytes)
    (hcov : runCompressed opts em mb.byte_values = false →
      ContentInterned p mb.byte_values) :
    decodeMemoryBytes p.data base
      (relocMemoryBytes base (descMemoryBytes opts em p.index mb)) = mb := by
  unfold descMemoryBytes descByteData relocMemoryBytes decodeMemoryBytes
  by_cases hrc : runCompressed opts em mb.byte_values = true
  · rw [if_pos hrc]
    have hrep : isRepeating mb.byte_values = true := by
      unfold runCompressed at hrc
      simp only [Bool.and_eq_true] at hrc
      exact hrc.2.2
    simp only [relocByteData, decodeByteData]
    rw [isRepeating_replicate _ hrep]
  · rw [if_neg hrc]
    obtain ⟨o, ho⟩ := hcov (by
      cases hv : runCompressed opts em mb.byte_values
      · rfl
      · exact absurd hv hrc)
    simp only [relocByteData, decodeByteData, ho, Option.getD_some]
    rw [Nat.add_sub_cancel_left, (hwf _ _ ho).2]

theorem descMapping_roundtrip (opts : SnapifyOptions) (p : BytePool)
    (base : Nat) (hwf : PoolWF p) (ms : MemoryMapping × List MemoryBytes)
    (hcov : ∀ mb ∈ ms.2,
      runCompressed opts (execMmapMapping opts ms.1) mb.byte_values = false →
      ContentInterned p mb.byte_values) :
    decodeMapping p.data base (relocMapping base (descMapping opts p.index ms)) = ms := by
  unfold descMapping relocMapping decodeMapping
  simp only [List.map_map]
  rw [map_self_of_mem ms.2 _ (fun mb hmb => by
    simp only [Function.comp]
    exact descMemoryBytes_roundtrip opts _ p base hwf mb (hcov mb hmb))]

theorem descRecord_decode (opts : SnapifyOptions) (p : BytePool) (base : Nat)
    (hwf : PoolWF p) (s : Snapshot)
    (hcov : ∀ ms ∈ s.mappings, ∀ mb ∈ ms.2,
      runCompressed opts (execMmapMapping opts ms.1) mb.byte_values = false →
      ContentInterned p mb.byte_values) :
    (relocSnap base (descRecord opts p.index s)).memory_mappings.map
      (decodeMapping p.data base) = s.mappings := by
  unfold descRecord relocSnap
  simp only [List.map_map]
  exact map_self_of_mem s.mappings _ (fun ms hms => by
    simp only [Function.comp]
    exact descMapping_roundtrip opts p base hwf ms (hcov ms hms))

/-- C7: LoadCorpus with a null filename returns a null corpus without
error; a supplied fd out-parameter is set to the no-descriptor sentinel
-1, and a null out-parameter is left untouched. -/
theorem load_corpus_null_filename (Corpus : Type)
    (loadCorpusFromFile : String → Bool → Option Int → Option Corpus × Option Int) :
    (∀ v : Int, LoadCorpus loadCorpusFromFile none (some v) = (none, some (-1))) ∧
    LoadCorpus loadCorpusFromFile none none = (none, none) :=
  ⟨fun _ => rfl, rfl⟩

/-- C8: the V2 option factories enable support_direct_mmap exactly for
aarch64 and for no other architecture. -/
theorem support_direct_mmap_default (arch : ArchitectureId) :
    ((SnapifyOptions.V2InputRunOpts arch).support_direct_mmap = true ↔
      arch = ArchitectureId.kAArch64) ∧
    ((SnapifyOptions.V2InputMakeOpts arch).support_direct_mmap = true ↔
      arch = ArchitectureId.kAArch64) := by
  cases arch <;> exact ⟨by decide, by decide⟩

/-- C10: V2InputRunOpts sets allow_undefined_end_state to false,
V2InputMakeOpts sets it to true, and both factories return platform_id
kAny and compress_repeating_bytes true for every architecture. -/
theorem v2_option_factory_invariants (arch : ArchitectureId) :
    (SnapifyOptions.V2InputRunOpts arch).allow_undefined_end_state = false ∧
    (SnapifyOptions.V2InputMakeOpts arch).allow_undefined_end_state = true ∧
    (SnapifyOptions.V2InputRunOpts arch).platform_id = PlatformId.kAny ∧
    (SnapifyOptions.V2InputMakeOpts arch).platform_id = PlatformId.kAny ∧
    (SnapifyOptions.V2InputRunOpts arch).compress_repeating_bytes = true ∧
    (SnapifyOptions.V2InputMakeOpts arch).compress_repeating_bytes = true := by
  cases arch <;> decide

/-- C9: the builder's output is a pure function of the architecture id,
the ordered snapshot list and the options: identical inputs produce
identical blobs. -/
theorem builder_deterministic (a1 a2 : ArchitectureId) (o1 o2 : SnapifyOptions)
    (s1 s2 : List Snapshot) (ha : a1 = a2) (ho : o1 = o2) (hs : s1 = s2) :
    GenerateRelocatableSnaps a1 o1 s1 = GenerateRelocatableSnaps a2 o2 s2 := by
  subst ha
  subst ho
  subst hs
  rfl

/-- C4: the relocated corpus has exactly as many records as the input
list, in the same order, and the i-th record's id equals the i-th input
snapshot's identifier. -/
theorem corpus_identity_preservation (arch : ArchitectureId)
    (opts : SnapifyOptions) (snapshots : List Snapshot) (base : Nat) :
    (RelocateCorpus base (GenerateRelocatableSnaps arch opts snapshots)).snaps.length
      = snapshots.length ∧
    ∀ i : Nat,
      ((RelocateCorpus base (GenerateRelocatableSnaps arch opts snapshots)).snaps[i]?).map
        RelocSnap.id = (snapshots[i]?).map Snapshot.id := by
  unfold RelocateCorpus GenerateRelocatableSnaps
  constructor
  · simp
  · intro i
    simp only [List.map_map, List.getElem?_map]
    cases snapshots[i]? <;> rfl

theorem snapify_notFound_char (s : Snapshot) (opts : SnapifyOptions) :
    Snapify s opts = Except.error SnapifyError.notFound ↔
      (opts.allow_undefined_end_state = false ∧
        ∀ es ∈ s.end_states,
          endStateMatchesPlatform opts.platform_id es = false) := by
  unfold Snapify
  cases hau : opts.allow_undefined_end_state with
  | true => simp
  | false =>
    simp only [Bool.false_eq_true, if_false]
    cases hf : s.end_states.find? (endStateMatchesPlatform opts.platform_id) with
    | some es =>
      constructor
      · intro h
        cases h
      · rintro ⟨_, hall⟩
        have hp := List.find?_some hf
        rw [hall es (List.mem_of_find?_eq_some hf)] at hp
        cases hp
    | none =>
      constructor
      · intro _
        refine ⟨by trivial, fun es hes => ?_⟩
        simpa using List.find?_eq_none.mp hf es hes
      · intro _
        rfl

theorem canSnapify_notFound (s : Snapshot) (opts : SnapifyOptions) :
    CanSnapify s opts = Except.error SnapifyError.notFound ↔
      Snapify s opts = Except.error SnapifyError.notFound := by
  unfold CanSnapify
  cases h : Snapify s opts <;> simp [Except.map]

/-- C6: CanSnapify and Snapify fail with the NOT_FOUND no-matching-end-
state error exactly when no expected end state satisfies the requested
platform and allow_undefined_end_state is false; with
allow_undefined_end_state true snapification succeeds and the builder
does not fail on the result. -/
theorem snapify_end_state_errors (s : Snapshot) (opts : SnapifyOptions) :
    (CanSnapify s opts = Except.error SnapifyError.notFound ↔
      (opts.allow_undefined_end_state = false ∧
        ∀ es ∈ s.end_states,
          endStateMatchesPlatform opts.platform_id es = false)) ∧
    (opts.allow_undefined_end_state = true →
      ∃ s2 : Snapshot, Snapify s opts = Except.ok s2 ∧
        ∀ (arch : ArchitectureId) (base : Nat),
          (RelocateCorpus base
            (GenerateRelocatableSnaps arch opts [s2])).snaps.length = 1) := by
  constructor
  · exact (canSnapify_notFound s opts).trans (snapify_notFound_char s opts)
  · intro h
    refine ⟨{ s with end_states := s.end_states.take 1 }, ?_, ?_⟩
    · unfold Snapify
      rw [if_pos h]
    · intro arch base
      simp [RelocateCorpus, GenerateRelocatableSnaps]

/-- C1: relocating the corpus built from a single canonical snapshot
yields exactly one record, and converting that record back with
SnapToSnapshot reconstructs a snapshot equal to the input: identifier,
memory mappings, byte contents and register state all round-trip. -/
theorem snap_round_trip (arch : ArchitectureId) (opts : SnapifyOptions)
    (S : Snapshot) (base : Nat)
    (_hc : CanonicalSnapshot opts S) (ha : S.arch = arch) :
    ∃ r, (RelocateCorpus base (GenerateRelocatableSnaps arch opts [S])).snaps = [r] ∧
      SnapToSnapshot (RelocateCorpus base (GenerateRelocatableSnaps arch opts [S])) r
        = S := by
  subst ha
  refine ⟨relocSnap base (descRecord opts (corpusPool opts [S]).index S), rfl, ?_⟩
  have hwf := corpusPool_wf opts [S]
  have hcov : ∀ ms ∈ S.mappings, ∀ mb ∈ ms.2,
      runCompressed opts (execMmapMapping opts ms.1) mb.byte_values = false →
      ContentInterned (corpusPool opts [S]) mb.byte_values :=
    fun ms hms mb hmb hrc =>
      corpusPool_covers opts [S] S (by simp) ms hms mb hmb hrc
  have hd := descRecord_decode opts (corpusPool opts [S]) base hwf S hcov
  show Snapshot.mk
      (relocSnap base (descRecord opts (corpusPool opts [S]).index S)).id S.arch
      ((relocSnap base (descRecord opts (corpusPool opts [S]).index S)).memory_mappings.map
        (decodeMapping (corpusPool opts [S]).data base))
      (relocSnap base (descRecord opts (corpusPool opts [S]).index S)).registers
      (relocSnap base (descRecord opts (corpusPool opts [S]).index S)).end_states = S
  rw [hd]
  rfl

/-- C2: in a corpus built with support_direct_mmap enabled from
canonical snapshots, every executable mapping's content is a single
literal (never repeating) region whose relocated data pointer and length
are both multiples of the page size. -/
theorem direct_mmap_alignment (arch : ArchitectureId) (opts : SnapifyOptions)
    (snapshots : List Snapshot) (base : Nat)
    (hdm : opts.support_direct_mmap = true)
    (_hcr : opts.compress_repeating_bytes = true)
    (hcan : ∀ S ∈ snapshots, CanonicalSnapshot opts S)
    (hbase : base % pageSize = 0) :
    ∀ snap ∈ (RelocateCorpus base (GenerateRelocatableSnaps arch opts snapshots)).snaps,
      ∀ m ∈ snap.memory_mappings, m.perms.x = true →
        m.memory_bytes.length = 1 ∧
        ∀ d ∈ m.memory_bytes, ∃ ptr n,
          d.data = RelocByteData.byte_values ptr n ∧
          ptr % pageSize = 0 ∧ n % pageSize = 0 := by
  intro snap hsnap m hm hx
  simp only [RelocateCorpus, GenerateRelocatableSnaps, List.map_map, List.mem_map,
    Function.comp] at hsnap
  obtain ⟨s, hs, rfl⟩ := hsnap
  simp only [relocSnap, descRecord, List.map_map, List.mem_map, Function.comp] at hm
  obtain ⟨ms, hms, rfl⟩ := hm
  simp only [relocMapping, descMapping] at hx
  have hexec : execMmapMapping opts ms.1 = true := by
    unfold execMmapMapping
    rw [hdm, hx]
    rfl
  obtain ⟨hlen1, hmod⟩ := hcan s hs ms hms hexec
  constructor
  · simp only [relocMapping, descMapping, List.length_map]
    exact hlen1
  · intro d hd
    simp only [relocMapping, descMapping, List.map_map, List.mem_map,
      Function.comp] at hd
    obtain ⟨mb, hmb, rfl⟩ := hd
    obtain ⟨o, ho, hoal⟩ := corpusPool_covers_exec opts snapshots s hs ms hms hexec mb hmb
    have hrc : ¬ (runCompressed opts (execMmapMapping opts ms.1) mb.byte_values = true) := by
      unfold runCompressed
      rw [hexec]
      simp
    refine ⟨base + o, mb.byte_values.length, ?_, ?_, hmod mb hmb⟩
    · simp only [relocMemoryBytes, descMemoryBytes, descByteData, if_neg hrc,
        relocByteData, ho, Option.getD_some]
    · rw [Nat.add_mod, hbase, hoal]
      rfl

theorem corpus_literal_desc (arch : ArchitectureId) (opts : SnapifyOptions)
    (snapshots : List Snapshot) (base : Nat)
    (r : RelocSnap) (m : RelocMemoryMapping) (d : RelocMemoryBytes) (ptr n : Nat)
    (hr : r ∈ (RelocateCorpus base (GenerateRelocatableSnaps arch opts snapshots)).snaps)
    (hm : m ∈ r.memory_mappings) (hd : d ∈ m.memory_bytes)
    (e : d.data = RelocByteData.byte_values ptr n) :
    ∃ o c, ptr = base + o ∧ n = c.length ∧
      lookupContent (corpusPool opts snapshots).index c = some o ∧
      extractBytes (corpusPool opts snapshots).data o c.length = c := by
  simp only [RelocateCorpus, GenerateRelocatableSnaps, List.map_map, List.mem_map,
    Function.comp] at hr
  obtain ⟨s, hs, rfl⟩ := hr
  simp only [relocSnap, descRecord, List.map_map, List.mem_map, Function.comp] at hm
  obtain ⟨ms, hms, rfl⟩ := hm
  simp only [relocMapping, descMapping, List.map_map, List.mem_map,
    Function.comp] at hd
  obtain ⟨mb, hmb, rfl⟩ := hd
  by_cases hrc : runCompressed opts (execMmapMapping opts ms.1) mb.byte_values = true
  · exfalso
    simp only [relocMemoryBytes, descMemoryBytes, descByteData, if_pos hrc,
      relocByteData] at e
    exact RelocByteData.noConfusion e
  · have hrc2 : runCompressed opts (execMmapMapping opts ms.1) mb.byte_values = false := by
      cases hv : runCompressed opts (execMmapMapping opts ms.1) mb.byte_values
      · rfl
      · exact absurd hv hrc
    obtain ⟨o, ho⟩ := corpusPool_covers opts snapshots s hs ms hms mb hmb hrc2
    simp only [relocMemoryBytes, descMemoryBytes, descByteData, if_neg hrc,
      relocByteData, ho, Option.getD_some] at e
    injection e with h1 h2
    subst h1
    subst h2
    exact ⟨o, mb.byte_values, rfl, rfl, ho, (corpusPool_wf opts snapshots _ _ ho).2⟩

/-- C3: any two literal byte spans of the relocated corpus whose pool
content reads back bit-identically share one pool region: their data
pointers are equal, even across different mappings or records. -/
theorem dedupe_memory_bytes (arch : ArchitectureId) (opts : SnapifyOptions)
    (snapshots : List Snapshot) (base : Nat)
    (r1 r2 : RelocSnap) (m1 m2 : RelocMemoryMapping) (d1 d2 : RelocMemoryBytes)
    (ptr1 n1 ptr2 n2 : Nat)
    (hr1 : r1 ∈ (RelocateCorpus base (GenerateRelocatableSnaps arch opts snapshots)).snaps)
    (hm1 : m1 ∈ r1.memory_mappings) (hd1 : d1 ∈ m1.memory_bytes)
    (hr2 : r2 ∈ (RelocateCorpus base (GenerateRelocatableSnaps arch opts snapshots)).snaps)
    (hm2 : m2 ∈ r2.memory_mappings) (hd2 : d2 ∈ m2.memory_bytes)
    (e1 : d1.data = RelocByteData.byte_values ptr1 n1)
    (e2 : d2.data = RelocByteData.byte_values ptr2 n2)
    (hsame : readBytes (RelocateCorpus base (GenerateRelocatableSnaps arch opts snapshots)) ptr1 n1
      = readBytes (RelocateCorpus base (GenerateRelocatableSnaps arch opts snapshots)) ptr2 n2) :
    ptr1 = ptr2 := by
  obtain ⟨o1, c1, rfl, rfl, ho1, hx1⟩ :=
    corpus_literal_desc arch opts snapshots base r1 m1 d1 ptr1 n1 hr1 hm1 hd1 e1
  obtain ⟨o2, c2, rfl, rfl, ho2, hx2⟩ :=
    corpus_literal_desc arch opts snapshots base r2 m2 d2 ptr2 n2 hr2 hm2 hd2 e2
  have h1 : readBytes (RelocateCorpus base (GenerateRelocatableSnaps arch opts snapshots))
      (base + o1) c1.length = c1 := by
    show extractBytes (corpusPool opts snapshots).data (base + o1 - base) c1.length = c1
    rw [Nat.add_sub_cancel_left]
    exact hx1
  have h2 : readBytes (RelocateCorpus base (GenerateRelocatableSnaps arch opts snapshots))
      (base + o2) c2.length = c2 := by
    show extractBytes (corpusPool opts snapshots).data (base + o2 - base) c2.length = c2
    rw [Nat.add_sub_cancel_left]
    exact hx2
  rw [h1, h2] at hsame
  subst hsame
  rw [ho1] at ho2
  injection ho2 with h
  rw [h]

/-- A defined end state used by the concrete example snapshots. -/
def exEndState : EndState := ⟨true, [PlatformId.kIntelSkylake], [1, 2]⟩

/-- A concrete canonical snapshot with one literal and one repeating
span. -/
def exSnapshot : Snapshot :=
  ⟨"round_trip_example", ArchitectureId.kX86_64,
    [(⟨4096, 8, ⟨true, false, false⟩⟩, [⟨4096, [1, 2, 3]⟩, ⟨4100, [7, 7, 7, 7]⟩])],
    [0, 1, 2], [exEndState]⟩

theorem snap_round_trip_witness :
    CanonicalSnapshot (SnapifyOptions.V2InputRunOpts ArchitectureId.kX86_64) exSnapshot ∧
    exSnapshot.arch = ArchitectureId.kX86_64 ∧
    ∃ r, (RelocateCorpus 0 (GenerateRelocatableSnaps ArchitectureId.kX86_64
        (SnapifyOptions.V2InputRunOpts ArchitectureId.kX86_64) [exSnapshot])).snaps = [r] ∧
      SnapToSnapshot (RelocateCorpus 0 (GenerateRelocatableSnaps ArchitectureId.kX86_64
        (SnapifyOptions.V2InputRunOpts ArchitectureId.kX86_64) [exSnapshot])) r
        = exSnapshot := by
  have hc : CanonicalSnapshot (SnapifyOptions.V2InputRunOpts ArchitectureId.kX86_64)
      exSnapshot := by
    unfold CanonicalSnapshot
    decide
  exact ⟨hc, rfl, snap_round_trip ArchitectureId.kX86_64
    (SnapifyOptions.V2InputRunOpts ArchitectureId.kX86_64) exSnapshot 0 hc rfl⟩

/-- One page of concrete executable content. -/
def exExecPage : ByteList := List.replicate 4096 9

theorem exExecPage_length : exExecPage.length = 4096 := by
  unfold exExecPage
  rw [List.length_replicate]

/-- A concrete canonical snapshot with one executable page for the
direct-mmap witness. -/
def exExecSnapshot : Snapshot :=
  ⟨"direct_mmap_example", ArchitectureId.kAArch64,
    [(⟨16384, 4096, ⟨true, false, true⟩⟩, [⟨16384, exExecPage⟩])],
    [3, 4], [exEndState]⟩

theorem direct_mmap_alignment_witness :
    (SnapifyOptions.V2InputRunOpts ArchitectureId.kAArch64).support_direct_mmap = true ∧
    (SnapifyOptions.V2InputRunOpts ArchitectureId.kAArch64).compress_repeating_bytes = true ∧
    (∀ S ∈ [exExecSnapshot],
      CanonicalSnapshot (SnapifyOptions.V2InputRunOpts ArchitectureId.kAArch64) S) ∧
    (0 : Nat) % pageSize = 0 ∧
    ∀ snap ∈ (RelocateCorpus 0 (GenerateRelocatableSnaps ArchitectureId.kAArch64
        (SnapifyOptions.V2InputRunOpts ArchitectureId.kAArch64) [exExecSnapshot])).snaps,
      ∀ m ∈ snap.memory_mappings, m.perms.x = true →
        m.memory_bytes.length = 1 ∧
        ∀ d ∈ m.memory_bytes, ∃ ptr n,
          d.data = RelocByteData.byte_values ptr n ∧
          ptr % pageSize = 0 ∧ n % pageSize = 0 := by
  have hcan : ∀ S ∈ [exExecSnapshot],
      CanonicalSnapshot (SnapifyOptions.V2InputRunOpts ArchitectureId.kAArch64) S := by
    intro S hS
    simp only [List.mem_singleton] at hS
    subst hS
    unfold CanonicalSnapshot
    intro ms hms _
    simp only [exExecSnapshot, List.mem_singleton] at hms
    subst hms
    refine ⟨rfl, ?_⟩
    intro mb hmb
    simp only [List.mem_singleton] at hmb
    subst hmb
    rw [show (MemoryBytes.mk 16384 exExecPage).byte_values = exExecPage from rfl,
      exExecPage_length]
    decide
  exact ⟨rfl, rfl, hcan, rfl,
    direct_mmap_alignment ArchitectureId.kAArch64
      (SnapifyOptions.V2InputRunOpts ArchitectureId.kAArch64) [exExecSnapshot] 0
      rfl rfl hcan rfl⟩

/-- A concrete snapshot holding the same literal content twice, in two
different spans of one read-only mapping. -/
def exDedupSnapshot : Snapshot :=
  ⟨"dedupe_example", ArchitectureId.kX86_64,
    [(⟨4096, 4096, ⟨true, false, false⟩⟩, [⟨4096, [1, 2, 3]⟩, ⟨4200, [1, 2, 3]⟩])],
    [], [exEndState]⟩

/-- The relocated corpus of the dedup example, mapped at base 0. -/
def exDedupCorpus : RelocatedCorpus :=
  RelocateCorpus 0 (GenerateRelocatableSnaps ArchitectureId.kX86_64
    (SnapifyOptions.V2InputRunOpts ArchitectureId.kX86_64) [exDedupSnapshot])

def exDedupSnap : RelocSnap := exDedupCorpus.snaps.getD 0 ⟨"", [], [], []⟩

def exDedupMapping : RelocMemoryMapping :=
  exDedupSnap.memory_mappings.getD 0 ⟨0, 0, ⟨false, false, false⟩, []⟩

def exDedupBytes1 : RelocMemoryBytes :=
  exDedupMapping.memory_bytes.getD 0 ⟨0, RelocByteData.byte_run 0 0⟩

def exDedupBytes2 : RelocMemoryBytes :=
  exDedupMapping.memory_bytes.getD 1 ⟨0, RelocByteData.byte_run 0 0⟩

theorem dedupe_memory_bytes_witness :
    (exDedupSnap ∈ exDedupCorpus.snaps ∧
      exDedupMapping ∈ exDedupSnap.memory_mappings ∧
      exDedupBytes1 ∈ exDedupMapping.memory_bytes ∧
      exDedupBytes2 ∈ exDedupMapping.memory_bytes ∧
      exDedupBytes1.data = RelocByteData.byte_values 0 3 ∧
      exDedupBytes2.data = RelocByteData.byte_values 0 3 ∧
      readBytes exDedupCorpus 0 3 = readBytes exDedupCorpus 0 3) ∧
    (0 : Nat) = 0 := by
  refine ⟨⟨by decide, by decide, by decide, by decide, by decide, by decide, rfl⟩, ?_⟩
  exact dedupe_memory_bytes ArchitectureId.kX86_64
    (SnapifyOptions.V2InputRunOpts ArchitectureId.kX86_64) [exDedupSnapshot] 0
    exDedupSnap exDedupSnap exDedupMapping exDedupMapping exDedupBytes1 exDedupBytes2
    0 3 0 3 (by decide) (by decide) (by decide) (by decide) (by decide) (by decide)
    (by decide) (by decide) rfl

theorem builder_deterministic_witness :
    GenerateRelocatableSnaps ArchitectureId.kX86_64
        (SnapifyOptions.V2InputRunOpts ArchitectureId.kX86_64) [exSnapshot]
      = GenerateRelocatableSnaps ArchitectureId.kX86_64
        (SnapifyOptions.V2InputRunOpts ArchitectureId.kX86_64) [exSnapshot] :=
  builder_deterministic ArchitectureId.kX86_64 ArchitectureId.kX86_64
    (SnapifyOptions.V2InputRunOpts ArchitectureId.kX86_64)
    (SnapifyOptions.V2InputRunOpts ArchitectureId.kX86_64)
    [exSnapshot] [exSnapshot] rfl rfl rfl

/-- Options allowing an undefined end state, used by the snapify
witness. -/
def exAllowOpts : SnapifyOptions := { allow_undefined_end_state := true }

/-- A concrete snapshot whose only end state is the undefined marker. -/
def exUndefinedSnapshot : Snapshot :=
  ⟨"undefined_end_state_example", ArchitectureId.kX86_64, [], [],
    [⟨false, [], []⟩]⟩

theorem snapify_end_state_errors_witness :
    (CanSnapify exUndefinedSnapshot exAllowOpts = Except.error SnapifyError.notFound ↔
      (exAllowOpts.allow_undefined_end_state = false ∧
        ∀ es ∈ exUndefinedSnapshot.end_states,
          endStateMatchesPlatform exAllowOpts.platform_id es = false)) ∧
    (exAllowOpts.allow_undefined_end_state = true →
      ∃ s2 : Snapshot, Snapify exUndefinedSnapshot exAllowOpts = Except.ok s2 ∧
        ∀ (arch : ArchitectureId) (base : Nat),
          (RelocateCorpus base
            (GenerateRelocatableSnaps arch exAllowOpts [s2])).snaps.length = 1) :=
  snapify_end_state_errors exUndefinedSnapshot exAllowOpts
